import Mathlib

/-!
Verification development for the ESRI Font Catalog generator
(`Esri-Font-Catalog-Maker.py`).

The script scans fixed directories for `.ttf`/`.otf` files, deduplicates them
by filename-derived name, and renders for each font two grid pages (basic
code points 32-255 and extended 256-511) into a PDF via a drawing backend.

This file gives a shallow embedding of that logic:
* floating-point page geometry is modelled over `ℚ` (all the spec-relevant
  facts are exact linear arithmetic on the constants involved);
* calls into the drawing backend are modelled as emitted events / cell
  records; a cell's glyph draw, which the script wraps in `try/except`, is
  modelled by an oracle `renders : Nat → Bool` saying whether the
  `drawCentredString` call for that code point succeeds;
* the filesystem walk is modelled as, per candidate directory, an existence
  flag plus the `(joined path, basename)` pairs the walk yields in order.
-/

namespace FontCatalog

/-! Page geometry constants (script lines 118-126)

`landscape(letter)` is 792 x 612 points, `inch` is 72 points. -/

def inch : ℚ := 72

def pageWidth : ℚ := 792

def pageHeight : ℚ := 612

def margin : ℚ := 3 / 10 * inch

def cellSize : ℚ := 1 / 2 * inch

def cols : Nat := 16

def rows : Nat := 14

/-- Grid origin x, `x_start = margin` (lines 148, 220). -/
def xStart : ℚ := margin

/-- Grid origin y, `y_start = page_height - 0.9 * inch` (lines 147, 219). -/
def yStart : ℚ := pageHeight - 9 / 10 * inch

/-! Python string formatting -/

/-- Uppercase hexadecimal digit character for `n < 16`. -/
def hexDigit (n : Nat) : Char :=
  if n < 10 then Char.ofNat (48 + n) else Char.ofNat (55 + n)

/-- Uppercase hexadecimal digits, most significant first (no padding); the
first argument is recursion fuel, kept at least the number being printed so
the fuel never runs out (structural recursion keeps the definition
kernel-reducible). -/
def hexDigitsAux : Nat → Nat → List Char
  | 0, n => [hexDigit n]
  | fuel + 1, n =>
    if n < 16 then [hexDigit n]
    else hexDigitsAux fuel (n / 16) ++ [hexDigit (n % 16)]

/-- Uppercase hexadecimal digits of `n`, most significant first (no padding). -/
def hexDigits (n : Nat) : List Char :=
  hexDigitsAux n n

/-- Python format `X` with zero padding to `width`, as in `f-string`
specs `04X` / `02X`: uppercase hex, left-padded with zeros to at least
`width` characters, never truncated. -/
def pyHex (width n : Nat) : String :=
  String.mk (List.replicate (width - (hexDigits n).length) '0' ++ hexDigits n)

/-- Decimal digit characters, most significant first, with recursion fuel as
in `hexDigitsAux`. -/
def decDigitsAux : Nat → Nat → List Char
  | 0, n => [Char.ofNat (48 + n)]
  | fuel + 1, n =>
    if n < 10 then [Char.ofNat (48 + n)]
    else decDigitsAux fuel (n / 10) ++ [Char.ofNat (48 + n % 10)]

/-- Decimal digit characters of `n`, most significant first. -/
def decDigits (n : Nat) : List Char :=
  decDigitsAux n n

/-- Python `str` of a nonnegative integer. -/
def decStr (n : Nat) : String :=
  String.mk (decDigits n)

/-- Python `chr(code)` as a one-character string. -/
def pyChr (code : Nat) : String :=
  String.mk [Char.ofNat code]

/-! Key labels (script lines 153-191) -/

/-- The `special_chars` table (lines 153-159): names for
non-printable/special keys on the basic page. -/
def specialChars : List (Nat × String) :=
  [(32, "Space"), (33, "!"), (34, "\""), (35, "#"), (36, "$"), (37, "%"),
   (38, "&"), (39, String.mk [Char.ofNat 39]),
   (40, "("), (41, ")"), (42, "*"), (43, "+"), (44, ","), (45, "-"),
   (46, "."), (47, "/"),
   (58, ":"), (59, ";"), (60, "<"), (61, "="), (62, ">"), (63, "?"),
   (64, "@"),
   (91, "["), (92, "\\"), (93, "]"), (94, "^"), (95, "_"),
   (96, String.mk [Char.ofNat 96]),
   (123, "\x7b"), (124, "|"), (125, "\x7d"), (126, "~"), (127, "DEL")]

/-- Dictionary lookup `special_chars[code]` / membership `code in special_chars`. -/
def specialLookup (code : Nat) : Option String :=
  (specialChars.find? (fun p => p.1 == code)).map (fun p => p.2)

/-- The key-label computation of `draw_character_grid` (lines 176-185):
special table first, then digits, uppercase and lowercase letters as
themselves, then the raw character below 127, else `U+` and 4-digit hex. -/
def keyLabel (code : Nat) : String :=
  match specialLookup code with
  | some s => s
  | none =>
    if 48 ≤ code ∧ code ≤ 57 then pyChr code
    else if 65 ≤ code ∧ code ≤ 90 then pyChr code
    else if 97 ≤ code ∧ code ≤ 122 then pyChr code
    else if code < 127 then pyChr code
    else "U+" ++ pyHex 4 code

/-- Truncation of long key names (lines 190-191): a label longer than
6 characters is replaced by its first 5 characters and a period. -/
def truncateLabel (s : String) : String :=
  if s.length > 6 then s.take 5 ++ "." else s

/-! Grid iteration (lines 161-166 and 223-228)

`for code in range(start_code, min(end_code + 1, start_code + rows * cols))`
followed by `if row >= rows: break`. -/

/-- The code points a grid loop visits, in order: the clamped `range`, cut
off at the first code whose computed row would reach `rows`. -/
def gridCodes (startCode endCode : Nat) : List Nat :=
  (List.range' startCode (min (endCode + 1) (startCode + rows * cols) - startCode)).takeWhile
    (fun code => (code - startCode) / cols < rows)

/-! Cells (one per visited code point)

The script draws, for every visited code, a bordered cell with a label line,
a decimal line, on the basic page a hex line, and then attempts the glyph
draw inside `try/except` (basic grid lines 168-213, extended grid lines
230-257).  A cell record collects what is drawn; `glyphDrawn` is true when
the real glyph was drawn, false when the `except` arm drew the muted
placeholder dash instead. -/

structure Cell where
  code : Nat
  row : Nat
  col : Nat
  x : ℚ
  y : ℚ
  label : String
  decLine : String
  hexLine : Option String
  glyphDrawn : Bool
deriving Repr, DecidableEq

/-- One cell of `draw_character_grid` (lines 162-213): placement, truncated
key label, decimal line, `x`-prefixed 2-digit hex line, glyph attempt. -/
def mkBasicCell (renders : Nat → Bool) (startCode code : Nat) : Cell :=
  let row := (code - startCode) / cols
  let col := (code - startCode) % cols
  { code := code
    row := row
    col := col
    x := xStart + (col : ℚ) * cellSize
    y := yStart - (row : ℚ) * cellSize
    label := truncateLabel (keyLabel code)
    decLine := decStr code
    hexLine := some ("x" ++ pyHex 2 code)
    glyphDrawn := renders code }

/-- One cell of `draw_extended_grid` (lines 224-257): placement, `U+` 4-digit
hex label (no truncation step on this page), decimal line, no hex line,
glyph attempt. -/
def mkExtendedCell (renders : Nat → Bool) (startCode code : Nat) : Cell :=
  let row := (code - startCode) / cols
  let col := (code - startCode) % cols
  { code := code
    row := row
    col := col
    x := xStart + (col : ℚ) * cellSize
    y := yStart - (row : ℚ) * cellSize
    label := "U+" ++ pyHex 4 code
    decLine := decStr code
    hexLine := none
    glyphDrawn := renders code }

/-- The grid loop body over a list of code points: emit one cell per code
and accumulate `char_count`, which is incremented exactly when the glyph
draw succeeded. -/
def runGrid (mk : Nat → Cell) (renders : Nat → Bool) : List Nat → List Cell × Nat
  | [] => ([], 0)
  | code :: restCodes =>
    let rest := runGrid mk renders restCodes
    (mk code :: rest.1, (if renders code then 1 else 0) + rest.2)

/-- Model of `draw_character_grid(canvas, font_id, font_name, start, end)`
(lines 144-215), as the cells drawn and the returned `char_count`. -/
def drawCharacterGrid (renders : Nat → Bool) (startCode endCode : Nat) :
    List Cell × Nat :=
  runGrid (mkBasicCell renders startCode) renders (gridCodes startCode endCode)

/-- Model of `draw_extended_grid(canvas, font_id, font_name, start, end)`
(lines 217-259), as the cells drawn and the returned `char_count`. -/
def drawExtendedGrid (renders : Nat → Bool) (startCode endCode : Nat) :
    List Cell × Nat :=
  runGrid (mkExtendedCell renders startCode) renders (gridCodes startCode endCode)

/-! Pages and the per-font loop (script lines 261-303) -/

/-- Legend printed under the basic page header (lines 283-285). -/
def basicLegend : String :=
  "Each cell shows: Key name (top), Decimal code, Hex code, Symbol (center)"

/-- Legend printed under the extended page header (lines 295-297). -/
def extendedLegend : String :=
  "Extended Unicode (256-511) - Each cell shows: Unicode ID (top), Decimal code, Symbol (center)"

/-- Observable output of the per-font loop: page breaks (`c.showPage()`),
page headers (`draw_page_header` with its page-of-total), legend lines, the
two grid draws, and the error print of the `except` arm. -/
inductive PageEvent where
  | pageBreak
  | header (fontName : String) (pageNum totalPages : Nat)
  | legend (text : String)
  | basicGrid (fontName : String)
  | extendedGrid (fontName : String)
  | logError (fontName : String)
deriving Repr, DecidableEq

/-- A font taken from the sorted font list, together with whether its
registration (`pdfmetrics.registerFont`, line 271) raises. -/
structure FontJob where
  name : String
  regFails : Bool
deriving Repr, DecidableEq

/-- One iteration of the fonts loop (lines 263-303): on failure the error is
printed and the iteration contributes nothing else; on success `page_count`
is incremented, a break is emitted only when the incremented count exceeds 1,
then header/legend/basic grid, then unconditionally a break and
header/legend/extended grid.  Returns the updated `page_count` and the
emitted events. -/
def processFont (totalFonts pc : Nat) (f : FontJob) : Nat × List PageEvent :=
  if f.regFails then (pc, [PageEvent.logError f.name])
  else
    let pc1 := pc + 1
    let firstPage :=
      (if pc1 > 1 then [PageEvent.pageBreak] else []) ++
        [PageEvent.header f.name pc1 (totalFonts * 2),
         PageEvent.legend basicLegend, PageEvent.basicGrid f.name]
    let pc2 := pc1 + 1
    let secondPage :=
      [PageEvent.pageBreak, PageEvent.header f.name pc2 (totalFonts * 2),
       PageEvent.legend extendedLegend, PageEvent.extendedGrid f.name]
    (pc2, firstPage ++ secondPage)

/-- The fonts loop, threading `page_count` (initially 0). -/
def fontsLoop (totalFonts : Nat) : Nat → List FontJob → Nat × List PageEvent
  | pc, [] => (pc, [])
  | pc, f :: rest =>
    let first := processFont totalFonts pc f
    let restRun := fontsLoop totalFonts first.1 rest
    (restRun.1, first.2 ++ restRun.2)

/-- The whole fonts loop of the script, with `total_fonts = len(fonts)`. -/
def processFonts (jobs : List FontJob) : List PageEvent :=
  (fontsLoop jobs.length 0 jobs).2

/-! Font locator (script lines 78-111) -/

/-- One candidate directory of `arcgis_font_dirs`: whether `os.path.exists`
holds, and the `(os.path.join(root, file), file)` pairs that
`os.walk` yields over it, in walk order. -/
structure FSDir where
  path : String
  present : Bool
  walkFiles : List (String × String)
deriving Repr, DecidableEq

/-- The extension filter `file.lower().endswith(('.ttf', '.otf'))` (line 94). -/
def isFontFile (fname : String) : Bool :=
  fname.toLower.endsWith ".ttf" || fname.toLower.endsWith ".otf"

/-- Index of the last `.` in a character list, if any. -/
def lastDotIdx : List Char → Option Nat
  | [] => none
  | c :: rest =>
    match lastDotIdx rest with
    | some i => some (i + 1)
    | none => if c == '.' then some 0 else none

/-- Root part of `os.path.splitext(file)` for a basename (line 96): split at
the last dot, except that a basename consisting of leading dots up to that
dot has no extension and is returned whole. -/
def splitextRoot (fname : String) : String :=
  match lastDotIdx fname.toList with
  | none => fname
  | some i =>
    if (fname.toList.take i).all (fun c => c == '.') then fname
    else String.mk (fname.toList.take i)

/-- All `(font_path, file)` pairs the directory scan visits, in order:
directories in list order, each only when it exists, files in walk order. -/
def walkAll (dirs : List FSDir) : List (String × String) :=
  dirs.flatMap (fun d => if d.present then d.walkFiles else [])

/-- The visited files that pass the extension filter, in visit order. -/
def candidates (dirs : List FSDir) : List (String × String) :=
  (walkAll dirs).filter (fun f => isFontFile f.2)

/-- The `font_dict` accumulation (lines 92-98) over a list of visited
`(font_path, file)` pairs: skip non-font files, derive the name by
`splitext`, and insert only when the name is not yet a key. -/
def scanFiles : List (String × String) → List (String × String) → List (String × String)
  | acc, [] => acc
  | acc, f :: rest =>
    if isFontFile f.2 then
      let name := splitextRoot f.2
      if (acc.find? (fun e => e.1 == name)).isSome then scanFiles acc rest
      else scanFiles (acc ++ [(name, f.1)]) rest
    else scanFiles acc rest

/-- State of `font_dict` after the scan, as an insertion-ordered association list
from derived font name to font path. -/
def fontScan (dirs : List FSDir) : List (String × String) :=
  scanFiles [] (walkAll dirs)

/-- Dictionary lookup `font_dict[name]`. -/
def lookupName (l : List (String × String)) (name : String) : Option String :=
  (l.find? (fun e => e.1 == name)).map (fun e => e.2)

/-- Sorted name list `fonts = sorted(font_dict.keys())` (line 105). -/
def fonts (dirs : List FSDir) : List String :=
  ((fontScan dirs).map (fun e => e.1)).mergeSort (fun a b => decide (a ≤ b))

/-! Top level (lines 105-119 and 261-306) -/

/-- Outcome of the run after the scan: either `sys.exit` with a code before
the canvas exists, or the finished document (the canvas is created only
after the zero-font check, and `c.save()` writes the PDF at the end). -/
inductive RunResult where
  | exited (code : Nat)
  | saved (doc : List PageEvent)
deriving Repr, DecidableEq

/-- The run from the end of the directory scan: `total_fonts == 0` exits
with code 1 (lines 109-111) before the canvas is created (line 119);
otherwise the fonts loop runs and the document is saved. -/
def runCatalog (dirs : List FSDir) (regFails : String → Bool) : RunResult :=
  let names := fonts dirs
  if names.length = 0 then RunResult.exited 1
  else RunResult.saved (processFonts (names.map (fun n => ⟨n, regFails n⟩)))

/-! Pagination policy vocabulary

Used to state the page-break and failure-isolation claims. -/

/-- The events of one page, without any page break: header with its
page-of-total, legend, and the grid draw (basic or extended). -/
def pageBlock (name : String) (pageNum totalPages : Nat) (basic : Bool) :
    List PageEvent :=
  if basic then
    [PageEvent.header name pageNum totalPages,
     PageEvent.legend basicLegend, PageEvent.basicGrid name]
  else
    [PageEvent.header name pageNum totalPages,
     PageEvent.legend extendedLegend, PageEvent.extendedGrid name]

/-- The pages (as blocks, in order) that fonts `names` contribute when every
registration succeeds, with page numbers continuing from `pc` already-emitted
pages: each font contributes its basic page then its extended page. -/
def pagesFrom (totalPages pc : Nat) : List String → List (List PageEvent)
  | [] => []
  | n :: rest =>
    pageBlock n (pc + 1) totalPages true ::
      pageBlock n (pc + 2) totalPages false :: pagesFrom totalPages (pc + 2) rest

/-- Emit a sequence of pages with the break policy under scrutiny: the first
page is not preceded by a page break, every later page is preceded by
exactly one. -/
def interleaveBreaks : List (List PageEvent) → List PageEvent
  | [] => []
  | p :: ps => p ++ ps.flatMap (fun q => PageEvent.pageBreak :: q)

/-- Whether an event is a page header. -/
def isHeaderEv : PageEvent → Bool
  | PageEvent.header _ _ _ => true
  | _ => false

/-- Whether an event is a header carrying the given page total. -/
def headerTotalIs (total : Nat) : PageEvent → Bool
  | PageEvent.header _ _ t => t == total
  | _ => true

/-! Helper lemmas -/

theorem length_takeWhile_le {α : Type} (p : α → Bool) (l : List α) :
    (l.takeWhile p).length ≤ l.length := by
  induction l with
  | nil => simp
  | cons a l ih =>
    cases h : p a <;> simp [List.takeWhile_cons, h] <;> omega

theorem takeWhile_eq_self_of_all {α : Type} {p : α → Bool} {l : List α}
    (h : ∀ a ∈ l, p a = true) : l.takeWhile p = l := by
  induction l with
  | nil => rfl
  | cons a l ih =>
    rw [List.takeWhile_cons, h a (by simp), ih (fun a ha => h a (by simp [ha]))]
    simp

theorem runGrid_fst (mk : Nat → Cell) (renders : Nat → Bool) (codes : List Nat) :
    (runGrid mk renders codes).1 = codes.map mk := by
  induction codes with
  | nil => rfl
  | cons c cs ih => simp [runGrid, ih]

theorem runGrid_snd (mk : Nat → Cell) (renders : Nat → Bool) (codes : List Nat) :
    (runGrid mk renders codes).2 = codes.countP renders := by
  induction codes with
  | nil => rfl
  | cons c cs ih =>
    simp only [runGrid, List.countP_cons, ih]
    cases h : renders c <;> simp [h] <;> omega

theorem length_gridCodes_le (s e : Nat) : (gridCodes s e).length ≤ 224 := by
  refine le_trans (length_takeWhile_le _ _) ?_
  rw [List.length_range']
  simp only [rows, cols]
  omega

set_option maxRecDepth 8000 in
theorem gridCodes_basic : gridCodes 32 255 = List.range' 32 224 := by decide

set_option maxRecDepth 8000 in
theorem gridCodes_extended : gridCodes 256 511 = List.range' 256 224 := by decide

/-! Claim theorems -/

/-- C1: a grid-drawing call renders at most `rows * cols = 224` cells on a
page, for every requested code range, however wide. -/
theorem grid_page_cap (renders : Nat → Bool) (s e : Nat) :
    rows * cols = 224 ∧
    (drawCharacterGrid renders s e).1.length ≤ 224 ∧
    (drawExtendedGrid renders s e).1.length ≤ 224 := by
  refine ⟨rfl, ?_, ?_⟩ <;>
    simp only [drawCharacterGrid, drawExtendedGrid, runGrid_fst, List.length_map] <;>
    exact length_gridCodes_le s e

/-- C8: a failed glyph draw is replaced per-cell by the placeholder and does
not remove the cell or stop the loop (the cells visited are exactly
`gridCodes s e` whatever the failure oracle says), and the returned
`char_count` is exactly the number of cells whose real glyph was drawn. -/
theorem glyph_fallback (renders : Nat → Bool) (s e : Nat) :
    (drawCharacterGrid renders s e).2 =
      (drawCharacterGrid renders s e).1.countP (fun c => c.glyphDrawn) ∧
    (drawExtendedGrid renders s e).2 =
      (drawExtendedGrid renders s e).1.countP (fun c => c.glyphDrawn) ∧
    (drawCharacterGrid renders s e).1.map (fun c => c.code) = gridCodes s e ∧
    (drawExtendedGrid renders s e).1.map (fun c => c.code) = gridCodes s e := by
  refine ⟨?_, ?_, ?_, ?_⟩ <;>
    simp [drawCharacterGrid, drawExtendedGrid, runGrid_fst, runGrid_snd,
      List.countP_map, List.map_map, Function.comp_def, mkBasicCell, mkExtendedCell]

theorem mem_drawCharacterGrid {code : Nat} (renders : Nat → Bool) (s e : Nat)
    (h : code ∈ gridCodes s e) :
    mkBasicCell renders s code ∈ (drawCharacterGrid renders s e).1 := by
  rw [drawCharacterGrid, runGrid_fst]
  exact List.mem_map_of_mem _ h

/-- C2: each drawn cell sits at row `(code - start) div 16`,
column `(code - start) mod 16`, at pixel position origin plus
`(col * cell_size, -(row * cell_size))`; larger rows are strictly lower on
the page, so row 0 is at the top. -/
theorem cell_placement (renders : Nat → Bool) (s e : Nat) :
    (∀ cell ∈ (drawCharacterGrid renders s e).1,
        cell.row = (cell.code - s) / 16 ∧ cell.col = (cell.code - s) % 16 ∧
        cell.x = xStart + (cell.col : ℚ) * cellSize ∧
        cell.y = yStart - (cell.row : ℚ) * cellSize) ∧
    (∀ cell ∈ (drawExtendedGrid renders s e).1,
        cell.row = (cell.code - s) / 16 ∧ cell.col = (cell.code - s) % 16 ∧
        cell.x = xStart + (cell.col : ℚ) * cellSize ∧
        cell.y = yStart - (cell.row : ℚ) * cellSize) ∧
    (∀ c1 ∈ (drawCharacterGrid renders s e).1,
      ∀ c2 ∈ (drawCharacterGrid renders s e).1, c1.row < c2.row → c2.y < c1.y) ∧
    (∀ c1 ∈ (drawExtendedGrid renders s e).1,
      ∀ c2 ∈ (drawExtendedGrid renders s e).1, c1.row < c2.row → c2.y < c1.y) := by
  have hcs : (0 : ℚ) < cellSize := by norm_num [cellSize, inch]
  refine ⟨?_, ?_, ?_, ?_⟩
  · intro cell hc
    rw [drawCharacterGrid, runGrid_fst] at hc
    obtain ⟨code, hcode, rfl⟩ := List.mem_map.1 hc
    exact ⟨rfl, rfl, rfl, rfl⟩
  · intro cell hc
    rw [drawExtendedGrid, runGrid_fst] at hc
    obtain ⟨code, hcode, rfl⟩ := List.mem_map.1 hc
    exact ⟨rfl, rfl, rfl, rfl⟩
  · intro c1 h1 c2 h2 hlt
    rw [drawCharacterGrid, runGrid_fst] at h1 h2
    obtain ⟨code1, hm1, rfl⟩ := List.mem_map.1 h1
    obtain ⟨code2, hm2, rfl⟩ := List.mem_map.1 h2
    show yStart - _ * cellSize < yStart - _ * cellSize
    apply sub_lt_sub_left
    exact (mul_lt_mul_right hcs).2 (by exact_mod_cast hlt)
  · intro c1 h1 c2 h2 hlt
    rw [drawExtendedGrid, runGrid_fst] at h1 h2
    obtain ⟨code1, hm1, rfl⟩ := List.mem_map.1 h1
    obtain ⟨code2, hm2, rfl⟩ := List.mem_map.1 h2
    show yStart - _ * cellSize < yStart - _ * cellSize
    apply sub_lt_sub_left
    exact (mul_lt_mul_right hcs).2 (by exact_mod_cast hlt)

/-- Witness for C2 at concrete inputs: codes 32 (row 0) and 48 (row 1) on
the basic page with range start 32; the row-1 cell is drawn lower. -/
theorem cell_placement_witness :
    (mkBasicCell (fun _ => true) 32 48).y < (mkBasicCell (fun _ => true) 32 32).y :=
  (cell_placement (fun _ => true) 32 255).2.2.1
    (mkBasicCell (fun _ => true) 32 32)
    (mem_drawCharacterGrid _ 32 255 (by rw [gridCodes_basic, List.mem_range'_1]; omega))
    (mkBasicCell (fun _ => true) 32 48)
    (mem_drawCharacterGrid _ 32 255 (by rw [gridCodes_basic, List.mem_range'_1]; omega))
    (by decide)

/-- C9: on the basic page every cell's decimal line is the code's decimal
text and its hex line is `x` plus 2-digit uppercase hex; the code-65 cell
reads `65` and `x41` and is indeed drawn on the page; no code above 255 is
ever visited by the basic grid call, which is invoked with range 32-255. -/
theorem code_lines (renders : Nat → Bool) :
    (∀ cell ∈ (drawCharacterGrid renders 32 255).1,
        cell.decLine = decStr cell.code ∧
        cell.hexLine = some ("x" ++ pyHex 2 cell.code) ∧
        cell.code ≤ 255) ∧
    (mkBasicCell renders 32 65).decLine = "65" ∧
    (mkBasicCell renders 32 65).hexLine = some "x41" ∧
    mkBasicCell renders 32 65 ∈ (drawCharacterGrid renders 32 255).1 := by
  refine ⟨?_, ?_, ?_, ?_⟩
  · intro cell hc
    rw [drawCharacterGrid, runGrid_fst] at hc
    obtain ⟨code, hcode, rfl⟩ := List.mem_map.1 hc
    rw [gridCodes_basic, List.mem_range'_1] at hcode
    exact ⟨rfl, rfl, show code ≤ 255 by omega⟩
  · show decStr 65 = "65"
    decide
  · show some ("x" ++ pyHex 2 65) = some "x41"
    decide
  · exact mem_drawCharacterGrid _ 32 255 (by rw [gridCodes_basic, List.mem_range'_1]; omega)

/-- Witness for C9 at the concrete cell for code 65. -/
theorem code_lines_witness :
    (mkBasicCell (fun _ => true) 32 65).code ≤ 255 :=
  ((code_lines (fun _ => true)).1 _ (code_lines (fun _ => true)).2.2.2).2.2

set_option maxRecDepth 8000 in
/-- C10: every label actually rendered (basic page 32-255, extended page
from 256) is at most 6 characters long, so the over-6 truncation branch is
never taken: the stored label equals the untruncated key label. -/
theorem label_fits (renders : Nat → Bool) :
    (∀ cell ∈ (drawCharacterGrid renders 32 255).1,
        cell.label.length ≤ 6 ∧ cell.label = keyLabel cell.code) ∧
    (∀ cell ∈ (drawExtendedGrid renders 256 511).1, cell.label.length = 6) ∧
    (∀ code, code < 256 → 32 ≤ code → truncateLabel (keyLabel code) = keyLabel code) := by
  have hkey : ∀ code, (h : code < 256) → 32 ≤ code → (keyLabel code).length ≤ 6 := by decide
  have hext : ∀ code, (h : code < 480) → 256 ≤ code → ("U+" ++ pyHex 4 code).length = 6 := by
    decide
  have htrunc : ∀ code, code < 256 → 32 ≤ code →
      truncateLabel (keyLabel code) = keyLabel code := by
    intro code hhi hlo
    have h6 := hkey code hhi hlo
    rw [truncateLabel, if_neg (by omega)]
  refine ⟨?_, ?_, htrunc⟩
  · intro cell hc
    rw [drawCharacterGrid, runGrid_fst] at hc
    obtain ⟨code, hcode, rfl⟩ := List.mem_map.1 hc
    rw [gridCodes_basic, List.mem_range'_1] at hcode
    have : (mkBasicCell renders 32 code).label = keyLabel code :=
      htrunc code (by omega) (by omega)
    rw [this]
    exact ⟨hkey code (by omega) (by omega), rfl⟩
  · intro cell hc
    rw [drawExtendedGrid, runGrid_fst] at hc
    obtain ⟨code, hcode, rfl⟩ := List.mem_map.1 hc
    rw [gridCodes_extended, List.mem_range'_1] at hcode
    exact hext code (by omega) (by omega)

/-- Witness for C10 at code 128, whose label `U+0080` has exactly the
maximal untruncated length 6. -/
theorem label_fits_witness :
    truncateLabel (keyLabel 128) = keyLabel 128 :=
  (label_fits (fun _ => true)).2.2 128 (by decide) (by decide)

/-- C3: the basic-page key label is the special-table entry when present
(code 32 gives `Space`), the character itself otherwise below 127 (covering
digits and letters, e.g. code 65 gives `A`), and `U+` with 4-digit uppercase
hex for non-special codes at or above 127 (code 200 gives `U+00C8`); on the
extended page the label is always `U+` with 4-digit uppercase hex. -/
theorem key_label_spec :
    keyLabel 32 = "Space" ∧
    keyLabel 65 = "A" ∧
    keyLabel 200 = "U+00C8" ∧
    (∀ code s, specialLookup code = some s → keyLabel code = s) ∧
    (∀ code, specialLookup code = none → code < 127 → keyLabel code = pyChr code) ∧
    (∀ code, specialLookup code = none → 127 ≤ code →
        keyLabel code = "U+" ++ pyHex 4 code) ∧
    (∀ renders : Nat → Bool, ∀ cell ∈ (drawExtendedGrid renders 256 511).1,
        cell.label = "U+" ++ pyHex 4 cell.code) := by
  refine ⟨by decide, by decide, by decide, ?_, ?_, ?_, ?_⟩
  · intro code s h
    rw [keyLabel, h]
  · intro code h hlt
    rw [keyLabel, h]
    split_ifs <;> first | rfl | omega
  · intro code h hge
    rw [keyLabel, h]
    split_ifs <;> first | rfl | omega
  · intro renders cell hc
    rw [drawExtendedGrid, runGrid_fst] at hc
    obtain ⟨code, hcode, rfl⟩ := List.mem_map.1 hc
    rfl

/-- Witness for C3: the special table maps code 33 to the label of the
exclamation key, as served by the lookup branch of the label computation. -/
theorem key_label_spec_witness :
    keyLabel 33 = "!" :=
  key_label_spec.2.2.2.1 33 "!" (by decide)

theorem fontsLoop_success (total : Nat) (names : List String) :
    ∀ pc, 0 < pc →
      fontsLoop total pc (names.map (fun n => FontJob.mk n false)) =
        (pc + 2 * names.length,
          (pagesFrom (total * 2) pc names).flatMap
            (fun q => PageEvent.pageBreak :: q)) := by
  induction names with
  | nil =>
    intro pc h
    simp [fontsLoop, pagesFrom]
  | cons n rest ih =>
    intro pc h
    have h1 : pc + 1 > 1 := by omega
    simp only [List.map_cons, fontsLoop, processFont, Bool.false_eq_true, if_false,
      if_pos h1, ih (pc + 2) (by omega), pagesFrom, pageBlock, if_true,
      List.flatMap_cons, List.cons_append, List.nil_append, List.append_assoc,
      Prod.mk.injEq, List.length_cons]
    exact ⟨by omega, trivial⟩

/-- C4: in a run where every font registers, the whole document is the page
blocks in order with the break policy: no page break before the very first
page, exactly one page break before every later page (including the second
page of the first font). -/
theorem page_break_policy (names : List String) :
    processFonts (names.map (fun n => FontJob.mk n false)) =
      interleaveBreaks (pagesFrom (names.length * 2) 0 names) := by
  cases names with
  | nil => rfl
  | cons n rest =>
    rw [processFonts]
    simp only [List.length_map, List.length_cons, List.map_cons, fontsLoop, processFont,
      Bool.false_eq_true, if_false, fontsLoop_success (rest.length + 1) rest 2 (by omega),
      pagesFrom, interleaveBreaks, pageBlock, if_true,
      List.flatMap_cons, List.cons_append, List.nil_append, List.append_assoc]
    simp

theorem fontsLoop_all_headerTotal (total : Nat) (jobs : List FontJob) :
    ∀ pc, (fontsLoop total pc jobs).2.all (headerTotalIs (total * 2)) = true := by
  induction jobs with
  | nil => intro pc; rfl
  | cons f rest ih =>
    intro pc
    simp only [fontsLoop, List.all_append, Bool.and_eq_true]
    refine ⟨?_, ih _⟩
    by_cases hf : f.regFails <;>
      by_cases hpc : pc + 1 > 1 <;>
      simp [processFont, hf, hpc, headerTotalIs]

theorem fontsLoop_countP_header (total : Nat) (jobs : List FontJob) :
    ∀ pc, (fontsLoop total pc jobs).2.countP isHeaderEv =
      2 * jobs.countP (fun j => !j.regFails) := by
  induction jobs with
  | nil => intro pc; rfl
  | cons f rest ih =>
    intro pc
    simp only [fontsLoop, List.countP_append, List.countP_cons, ih]
    by_cases hf : f.regFails <;>
      by_cases hpc : pc + 1 > 1 <;>
      simp [processFont, hf, hpc, isHeaderEv, List.countP_cons] <;>
      omega

/-- C5: a font whose registration raises only logs the error and the loop
continues with the remaining fonts unchanged (its two pages are skipped),
while every header ever emitted shows the pre-computed page total
`2 * F` for a font set of size `F`, with no post-failure correction. -/
theorem font_failure_isolation (jobs : List FontJob) (total pc : Nat)
    (name : String) (rest : List FontJob) :
    (processFonts jobs).all (headerTotalIs (jobs.length * 2)) = true ∧
    (processFonts jobs).countP isHeaderEv = 2 * jobs.countP (fun j => !j.regFails) ∧
    fontsLoop total pc (FontJob.mk name true :: rest) =
      ((fontsLoop total pc rest).1,
        PageEvent.logError name :: (fontsLoop total pc rest).2) := by
  refine ⟨fontsLoop_all_headerTotal jobs.length jobs 0,
    fontsLoop_countP_header jobs.length jobs 0, ?_⟩
  simp [fontsLoop, processFont]

theorem option_isSome_map {α β : Type} (f : α → β) (o : Option α) :
    (Option.map f o).isSome = o.isSome := by
  cases o <;> rfl

theorem scanFiles_lookup (name : String) :
    ∀ (files acc : List (String × String)),
      lookupName (scanFiles acc files) name =
        (lookupName acc name).or
          (((files.filter (fun f => isFontFile f.2)).find?
              (fun f => splitextRoot f.2 == name)).map (fun f => f.1)) := by
  intro files
  induction files with
  | nil =>
    intro acc
    cases h : lookupName acc name <;> simp [scanFiles, h]
  | cons f rest ih =>
    intro acc
    cases hfont : isFontFile f.2 with
    | false =>
      simp only [scanFiles, hfont, Bool.false_eq_true, if_false]
      rw [ih acc]
      simp [List.filter_cons, hfont]
    | true =>
      cases hacc : (acc.find? (fun e => e.1 == splitextRoot f.2)).isSome with
      | true =>
        simp only [scanFiles, hfont, hacc, if_true]
        rw [ih acc]
        by_cases hname : splitextRoot f.2 = name
        · subst hname
          obtain ⟨e, he⟩ := Option.isSome_iff_exists.1 hacc
          simp [lookupName, he, List.filter_cons, hfont, List.find?_cons]
        · simp [List.filter_cons, hfont, List.find?_cons, hname]
      | false =>
        simp only [scanFiles, hfont, hacc, Bool.false_eq_true, if_false]
        rw [if_pos trivial, ih (acc ++ [(splitextRoot f.2, f.1)])]
        by_cases hname : splitextRoot f.2 = name
        · subst hname
          have hnone : acc.find? (fun e => e.1 == splitextRoot f.2) = none := by
            rw [← Option.not_isSome_iff_eq_none, hacc]
            simp
          simp [lookupName, List.find?_append, hnone, List.filter_cons, hfont,
            List.find?_cons]
        · simp [lookupName, List.find?_append, List.filter_cons, hfont,
            List.find?_cons, hname]

/-- C6: the locator keeps exactly the files with a font extension
(case-insensitively `.ttf` or `.otf`), keyed by the filename with its
extension stripped; on a derived-name collision the first-visited file wins
(earlier directory in list order, then earlier in the walk); the font names
are then iterated in sorted order.  All of it is a pure function of the
modelled filesystem state, hence deterministic. -/
theorem font_locator_spec (dirs : List FSDir) (name : String) :
    lookupName (fontScan dirs) name =
      ((candidates dirs).find? (fun f => splitextRoot f.2 == name)).map
        (fun f => f.1) ∧
    List.Pairwise (fun a b : String => a ≤ b) (fonts dirs) ∧
    (name ∈ fonts dirs ↔ ∃ f ∈ candidates dirs, splitextRoot f.2 = name) := by
  refine ⟨?_, ?_, ?_⟩
  · rw [fontScan, scanFiles_lookup name (walkAll dirs) []]
    rfl
  · have h := @List.sorted_mergeSort String
      (fun a b : String => decide (a ≤ b))
      (fun a b c hab hbc => by
        simp only [decide_eq_true_eq] at *
        exact le_trans hab hbc)
      (fun a b => by
        simp only [Bool.or_eq_true, decide_eq_true_eq]
        exact le_total a b)
      ((fontScan dirs).map (fun e => e.1))
    exact h.imp (fun hab => of_decide_eq_true hab)
  · have h1 : lookupName (fontScan dirs) name =
        ((candidates dirs).find? (fun f => splitextRoot f.2 == name)).map
          (fun f => f.1) := by
      rw [fontScan, scanFiles_lookup name (walkAll dirs) []]
      rfl
    have hiso : ((fontScan dirs).find? (fun e => e.1 == name)).isSome
        = ((candidates dirs).find? (fun f => splitextRoot f.2 == name)).isSome := by
      have h2 := congrArg Option.isSome h1
      rwa [lookupName, option_isSome_map, option_isSome_map] at h2
    rw [fonts, List.mem_mergeSort, List.mem_map]
    constructor
    · rintro ⟨e, he, rfl⟩
      have hs : ((fontScan dirs).find? (fun x => x.1 == e.1)).isSome :=
        List.find?_isSome.2 ⟨e, he, by simp⟩
      rw [hiso] at hs
      obtain ⟨f, hf, hfname⟩ := List.find?_isSome.1 hs
      exact ⟨f, hf, by simpa using hfname⟩
    · rintro ⟨f, hf, hfname⟩
      have hs : ((candidates dirs).find? (fun f => splitextRoot f.2 == name)).isSome :=
        List.find?_isSome.2 ⟨f, hf, by simp [hfname]⟩
      rw [← hiso] at hs
      obtain ⟨e, he, hename⟩ := List.find?_isSome.1 hs
      exact ⟨e, he, by simpa using hename⟩

/-- C7: when the scan finds zero fonts the run exits with code 1, before the
output document exists, so no saved document (no PDF) is ever produced. -/
theorem zero_fonts_abort (dirs : List FSDir) (regFails : String → Bool)
    (h : (fonts dirs).length = 0) :
    runCatalog dirs regFails = RunResult.exited 1 ∧
    ∀ doc, runCatalog dirs regFails ≠ RunResult.saved doc := by
  have hrun : runCatalog dirs regFails = RunResult.exited 1 := by
    rw [runCatalog]
    simp [h]
  exact ⟨hrun, fun doc hd => by rw [hrun] at hd; exact RunResult.noConfusion hd⟩

/-- Witness for C7: an empty directory list yields zero fonts, and the run
on it exits with code 1. -/
theorem zero_fonts_abort_witness :
    (fonts []).length = 0 ∧ runCatalog [] (fun _ => false) = RunResult.exited 1 :=
  ⟨by simp [fonts, fontScan, scanFiles, walkAll],
    (zero_fonts_abort [] (fun _ => false)
      (by simp [fonts, fontScan, scanFiles, walkAll])).1⟩
